import Mathlib

/-!
Verification of the remote-object proxying and call-correlation core of a
Python/JavaScript bridge (`src/javascript/proxy.py`): the `Executor`
(correlation-ID allocation, `ipc` single round trips, two-phase `pcall`
with argument adoption) and the `Proxy` object model (result-kind
decoding, attribute reads/writes, iteration, membership).

The embedding is shallow: Python values become `PyVal` (object identity is
an explicit heap id `oid`, so "the very same object instance" is
expressible), the background event loop and response registry are an
oracle mapping each correlation ID to the arrival time and content of its
response, and `threading.Event.wait(timeout)` becomes `lockWait`.
-/

set_option autoImplicit false

namespace JsPyBridge

/-- Association-list lookup, first match wins.  Python dict assignment is
modelled by prepending (`dictSet`), which gives overwrite semantics. -/
def dlookup {κ α : Type} [DecidableEq κ] : List (κ × α) → κ → Option α
  | [], _ => none
  | e :: rest, k => if e.1 = k then some e.2 else dlookup rest k

/-- Python dict assignment `d[k] = v` (overwrite semantics under `dlookup`). -/
def dictSet {κ α : Type} (m : List (κ × α)) (k : κ) (v : α) : List (κ × α) :=
  (k, v) :: m

/-- Wire-message keys: Python passes both strings and integer indices as the
`key`/`attr` of a request. -/
inductive Key where
  | kstr (s : String)
  | kint (n : Int)
deriving DecidableEq, Repr

/-- Python values as they matter to the bridge.  Floats are modelled as
rationals (the bridge never does float arithmetic, it only classifies and
compares them).  `vobj` is a reference into the object heap: two `vobj`
with the same `oid` are the same Python object instance. -/
inductive PyVal where
  | vint (n : Int)
  | vfloat (q : Rat)
  | vbool (b : Bool)
  | vnone
  | vstr (s : String)
  | vobj (oid : Nat)
deriving DecidableEq, Repr

/-- The attributes of a heap object that the bridge reads or writes:
whether it carries an `ffid` attribute, whether it is callable, and the
`iffid` tag written during adoption of callables. -/
structure PyObjData where
  ffid : Option Nat
  callable : Bool
  iffid : Option Nat
deriving DecidableEq, Repr

/-- The Python object heap, keyed by object identity. -/
abbrev Heap := List (Nat × PyObjData)

/-- `hasattr(arg, "ffid")` together with the attribute's value. -/
def argFfid (heap : Heap) : PyVal → Option Nat
  | .vobj oid =>
    match dlookup heap oid with
    | some d => d.ffid
    | none => none
  | _ => none

/-- `hasattr(x, "__call__")`. -/
def isCallable (heap : Heap) : PyVal → Bool
  | .vobj oid =>
    match dlookup heap oid with
    | some d => d.callable
    | none => false
  | _ => false

/-- `setattr(x, "iffid", f)`; on non-objects the Python `setattr` raises and
`pcall` swallows the exception, so the heap is unchanged. -/
def setIffid (heap : Heap) (v : PyVal) (f : Nat) : Heap :=
  match v with
  | .vobj oid =>
    match dlookup heap oid with
    | some d => dictSet heap oid { d with iffid := some f }
    | none => heap
  | _ => heap

/-- The structured error payload of a remote error response
(`res["error"]`); the Executor treats it opaquely. -/
structure ErrPayload where
  payload : String
deriving DecidableEq, Repr

/-- A response record from the event loop.  Python responses are dicts; the
fields used by the Executor are `error`, `key`, `val`, the tag-to-FFID map
of an FFID-assignment reply, and the `keys` list of a `keys` reply. -/
structure Resp where
  error : Option ErrPayload := none
  key : String := ""
  val : PyVal := .vnone
  valMap : List (Nat × Nat) := []
  keys : List String := []
deriving DecidableEq, Repr

/-- The response registry abstracted: for a correlation ID, the arrival
time of its response (if one ever arrives) and its content. -/
abbrev Oracle := Nat → Option (Nat × Resp)

/-- Exceptions raised by the Executor and Proxy code. -/
inductive BridgeError where
  /-- `JavaScriptError(attr, res["error"])`. -/
  | jsError (attr : Key) (payload : ErrPayload)
  /-- `Exception(f"Timed out accessing '\x7battr\x7d'")` in `ipc`. -/
  | timeoutAccess (attr : Key)
  /-- `Exception("Execution timed out")` while awaiting the FFID reply. -/
  | execTimeout
  /-- `Exception(f"Call to '\x7battr\x7d' timed out. ...")` in `pcall`. -/
  | callTimeout (attr : Key)
  /-- `RuntimeError(f"Unhandled action '\x7baction\x7d'")` in `ipc`. -/
  | runtimeError (action : String)
  /-- Python `KeyError` on a missing dict key. -/
  | keyError (k : Nat)
  /-- Python `TypeError` from comparing `int` with a non-number. -/
  | typeErrorCmp
  /-- A `lock.wait(None)` whose response never arrives blocks forever;
  the model reports the non-terminating call as this outcome. -/
  | hang
deriving DecidableEq, Repr

/-- Diagnostics printed by the Executor. -/
inductive Diag where
  /-- `print(config.dead)` — the special dead-event-thread notice. -/
  | deadNotice
  /-- `print("Timed out", action, ffid, attr, repr(config.event_thread))`. -/
  | timedOut (action : String) (ffid : Nat) (attr : Key) (eventThread : Bool)
deriving DecidableEq, Repr

/-- Outcome of `lock.wait(timeout)` for a request: fulfilled within the
timeout, timed out, or (with `timeout = none` and no response ever) blocked
forever. -/
inductive WaitRes where
  | fulfilled (res : Resp)
  | timedOut
  | blocked
deriving DecidableEq, Repr

/-- `lock.wait(timeout)` against the response registry: succeeds iff the
response arrives within the timeout; `timeout = none` waits forever. -/
def lockWait (timeout : Option Nat) (arrival : Option (Nat × Resp)) : WaitRes :=
  match arrival, timeout with
  | none, none => .blocked
  | none, some _ => .timedOut
  | some (_, res), none => .fulfilled res
  | some (t, res), some bound => if t ≤ bound then .fulfilled res else .timedOut

/-- Serialized form of one argument in an outgoing `pcall` payload. -/
inductive SerVal where
  /-- A JSON-primitive inlined unchanged. -/
  | inline (v : PyVal)
  /-- `\x7b"ffid": f\x7d` — reference to an already-known object. -/
  | ffidRef (f : Nat)
  /-- `\x7b"r": tag, "ffid": ""\x7d` — adoption request under a provisional tag. -/
  | adoptReq (tag : Nat)
deriving DecidableEq, Repr

/-- Whether a serialized argument took the adoption path. -/
def SerVal.isAdopt : SerVal → Bool
  | .adoptReq _ => true
  | _ => false

/-- The serializer state threaded through `pcall`'s `ser` closure:
`self.ctr`, `self.expectReply` and the `wanted` map of pending adoptions. -/
structure SerSt where
  ctr : Nat
  expectReply : Bool
  wanted : List (Nat × PyVal)
deriving DecidableEq, Repr

/-- The `ser` closure of `Executor.pcall`: an argument carrying an `ffid`
attribute serializes as a `\x7bffid\x7d` reference; anything else is assigned the
provisional tag `ctr+1`, recorded in `wanted`, and serialized as an
adoption request (setting `expectReply`). -/
def Executor.ser (heap : Heap) (st : SerSt) (arg : PyVal) : SerSt × SerVal :=
  match argFfid heap arg with
  | some f => ({ st with ctr := st.ctr + 1 }, .ffidRef f)
  | none =>
    let c := st.ctr + 1
    (⟨c, true, dictSet st.wanted c arg⟩, .adoptReq c)

/-- Whether `json.dumps` serializes a value natively (so that the `default=ser`
hook is not consulted for it). -/
def isJsonInline : PyVal → Bool
  | .vobj _ => false
  | _ => true

/-- `json.dumps(packet, default=ser)` over a flat argument list:
JSON-primitives inline, everything else through `ser`. -/
def serArgsJson (heap : Heap) : SerSt → List PyVal → SerSt × List SerVal
  | st, [] => (st, [])
  | st, a :: rest =>
    let p := if isJsonInline a then (st, SerVal.inline a) else Executor.ser heap st a
    let q := serArgsJson heap p.1 rest
    (q.1, p.2 :: q.2)

/-- The primitive test of the force-refs loop:
`isinstance(v, (int, float)) or v is None or v is True or v is False`. -/
def isEnvPrim : PyVal → Bool
  | .vint _ => true
  | .vfloat _ => true
  | .vbool _ => true
  | .vnone => true
  | _ => false

/-- The body of the force-refs loop for one captured environment value:
primitives pass through unchanged, everything else goes through `ser`. -/
def serEnvEntry (heap : Heap) (st : SerSt) (v : PyVal) : SerSt × SerVal :=
  if isEnvPrim v then (st, .inline v) else Executor.ser heap st v

/-- The force-refs loop over the captured environment map. -/
def serLocals (heap : Heap) : SerSt → List (String × PyVal) → SerSt × List (String × SerVal)
  | st, [] => (st, [])
  | st, (k, v) :: rest =>
    let p := serEnvEntry heap st v
    let q := serLocals heap p.1 rest
    (q.1, (k, p.2) :: q.2)

/-- Arguments of an outgoing packet: raw (unserialized, as `ipc` sends
them), a serialized `pcall` list, or the force-refs pair of code block and
serialized environment. -/
inductive PacketArgs where
  | noArgs
  | raw (l : List PyVal)
  | serList (l : List SerVal)
  | evalArgs (block : String) (locals : List (String × SerVal))
deriving DecidableEq, Repr

/-- An outbound wire request `\x7br, action, ffid, key, args, p\x7d`. -/
structure Packet where
  r : Nat
  action : String
  ffid : Nat
  key : Option Key
  args : PacketArgs
  p : Option Nat
deriving DecidableEq, Repr

/-- The packet `Executor.ipc` builds for each recognized action (`none`
for an unhandled action, in which case `ipc` raises `RuntimeError`). -/
def ipcPacket (r : Nat) (action : String) (ffid : Nat) (attr : Key) (args : List PyVal) :
    Option Packet :=
  if action = "get" then some ⟨r, "get", ffid, some attr, .noArgs, none⟩
  else if action = "init" then some ⟨r, "init", ffid, some attr, .raw args, none⟩
  else if action = "inspect" then some ⟨r, "inspect", ffid, some attr, .noArgs, none⟩
  else if action = "serialize" then some ⟨r, "serialize", ffid, none, .noArgs, none⟩
  else if action = "blob" then some ⟨r, "blob", ffid, none, .noArgs, none⟩
  else if action = "set" then some ⟨r, "set", ffid, some attr, .raw args, none⟩
  else if action = "keys" then some ⟨r, "keys", ffid, none, .noArgs, none⟩
  else none

/-- Everything observable about one `Executor.ipc` call: the correlation
ID it consumed, the new counter, the packet it queued, the diagnostics it
printed, the wait bound it used, and its result. -/
structure IpcTrace where
  reqId : Nat
  finalI : Nat
  sent : Option Packet
  printed : List Diag
  waitBound : Nat
  result : Except BridgeError Resp
deriving Repr

/-- `Executor.ipc`: increment `self.i`, build and queue the packet, wait at
most 10 seconds, on timeout print the diagnostics (with the dead notice if
`config.event_thread` is unset) and raise; on a response with an `error`
field raise `JavaScriptError(attr, res["error"])`, otherwise return the
response. -/
def Executor.ipc (i : Nat) (action : String) (ffid : Nat) (attr : Key)
    (args : List PyVal) (eventThread : Bool) (oracle : Oracle) : IpcTrace :=
  let r := i + 1
  let pktO := ipcPacket r action ffid attr args
  let step : List Diag × Except BridgeError Resp :=
    match pktO with
    | none => ([], .error (.runtimeError action))
    | some _ =>
      match lockWait (some 10) (oracle r) with
      | .fulfilled res =>
        match res.error with
        | some e => ([], .error (.jsError attr e))
        | none => ([], .ok res)
      | _ =>
        ((if eventThread then [] else [.deadNotice]) ++ [.timedOut action ffid attr eventThread],
          .error (.timeoutAccess attr))
  ⟨r, r, pktO, step.1, 10, step.2⟩

/-- The mutable executor/bridge state: the correlation counter `self.i`,
the reference map `self.bridge.m` of locally-owned values, and the Python
object heap. -/
structure ExecState where
  i : Nat
  m : List (Nat × PyVal)
  heap : Heap
deriving DecidableEq, Repr

/-- `Executor.get`: `self.bridge.m[ffid]`. -/
def Executor.get (st : ExecState) (ffid : Nat) : Option PyVal :=
  dlookup st.m ffid

/-- The arguments of a `pcall`, with the force-refs mode carried
structurally: every force-refs call site passes `(block, locals)`. -/
inductive PcallArgs where
  | normal (l : List PyVal)
  | refs (block : String) (locals : List (String × PyVal))
deriving DecidableEq, Repr

/-- Phase-1 serialization of `pcall` arguments from a fresh serializer
state (`self.ctr = 0`, `self.expectReply = False`, empty `wanted`). -/
def pcallSer (heap : Heap) : PcallArgs → SerSt × PacketArgs
  | .normal l =>
    let q := serArgsJson heap ⟨0, false, []⟩ l
    (q.1, .serList q.2)
  | .refs block locals =>
    let q := serLocals heap ⟨0, false, []⟩ locals
    (q.1, .evalArgs block q.2)

/-- The adoption loop of `pcall`: for each `requestId -> ffid` pair of the
FFID-assignment reply, store `wanted[requestId]` into `bridge.m[ffid]` and,
when the stored value is callable, tag it with `iffid = ffid` (a missing
`requestId` raises `KeyError`, leaving the updates made so far in place). -/
def applyAdoption (wanted : List (Nat × PyVal)) :
    List (Nat × Nat) → List (Nat × PyVal) → Heap →
    List (Nat × PyVal) × Heap × Option BridgeError
  | [], m, heap => (m, heap, none)
  | (rid, f) :: rest, m, heap =>
    match dlookup wanted rid with
    | none => (m, heap, some (.keyError rid))
    | some v =>
      applyAdoption wanted rest (dictSet m f v)
        (if isCallable heap v then setIffid heap v f else heap)

/-- Everything observable about one `Executor.pcall`: the two correlation
IDs it consumed, the packet it queued, whether it awaited an
FFID-assignment reply, the wait bound, printed diagnostics, the state
after the call (counter, reference map, heap), and its result. -/
structure PcallTrace where
  callRespId : Nat
  ffidRespId : Nat
  sent : Packet
  expectReply : Bool
  waitBound : Option Nat
  printed : List Diag
  finalState : ExecState
  result : Except BridgeError (String × PyVal)
deriving Repr

/-- `Executor.pcall`: reserve the two correlation IDs `i+1` (call result)
and `i+2` (FFID assignment), serialize the arguments (force-refs mode
inlines only int/float/bool/None and feeds everything else to `ser`;
normal mode serializes through `json.dumps` with `ser` as fallback), queue
the packet with `p = ctr`, and — when any argument required adoption —
await the FFID-assignment reply within `timeout`, raise on its timeout or
error, apply the adoption loop, then await the call result within
`timeout` and decode it. -/
def Executor.pcall (st : ExecState) (eventThread : Bool) (oracle : Oracle)
    (ffid : Nat) (action : String) (attr : Key) (args : PcallArgs)
    (timeout : Option Nat := some 1000) : PcallTrace :=
  let callRespId := st.i + 1
  let ffidRespId := st.i + 2
  let sp := pcallSer st.heap args
  let pkt : Packet := ⟨callRespId, action, ffid, some attr, sp.2, some sp.1.ctr⟩
  let phase1 : (List (Nat × PyVal) × Heap) × Option BridgeError :=
    if sp.1.expectReply then
      match lockWait timeout (oracle ffidRespId) with
      | .timedOut => ((st.m, st.heap), some .execTimeout)
      | .blocked => ((st.m, st.heap), some .hang)
      | .fulfilled pre =>
        match pre.error with
        | some e => ((st.m, st.heap), some (.jsError attr e))
        | none =>
          match applyAdoption sp.1.wanted pre.valMap st.m st.heap with
          | (m2, h2, err) => ((m2, h2), err)
    else ((st.m, st.heap), none)
  let outcome : List Diag × Except BridgeError (String × PyVal) :=
    match phase1.2 with
    | some e => ([], .error e)
    | none =>
      match lockWait timeout (oracle callRespId) with
      | .timedOut => ((if eventThread then [] else [.deadNotice]), .error (.callTimeout attr))
      | .blocked => ([], .error .hang)
      | .fulfilled res =>
        match res.error with
        | some e => ([], .error (.jsError attr e))
        | none => ([], .ok (res.key, res.val))
  ⟨callRespId, ffidRespId, pkt, sp.1.expectReply, timeout, outcome.1,
    ⟨st.i + 2, phase1.1.1, phase1.1.2⟩, outcome.2⟩

/-- `Executor.getProp`: an `ipc` `get` returning `(resp["key"], resp["val"])`. -/
def Executor.getProp (st : ExecState) (eventThread : Bool) (oracle : Oracle)
    (ffid : Nat) (method : Key) : IpcTrace × Except BridgeError (String × PyVal) :=
  let tr := Executor.ipc st.i "get" ffid method [] eventThread oracle
  (tr, tr.result.map fun r => (r.key, r.val))

/-- `Executor.setProp`: a `pcall` with action `set` and the `pcall` default
timeout. -/
def Executor.setProp (st : ExecState) (eventThread : Bool) (oracle : Oracle)
    (ffid : Nat) (method : Key) (val : PyVal) : PcallTrace :=
  Executor.pcall st eventThread oracle ffid "set" method (.normal [val])

/-- `Executor.callProp`: a `pcall` with action `call` and an explicit
timeout (Python default `None`). -/
def Executor.callProp (st : ExecState) (eventThread : Bool) (oracle : Oracle)
    (ffid : Nat) (method : Key) (args : PcallArgs)
    (timeout : Option Nat := none) : PcallTrace :=
  Executor.pcall st eventThread oracle ffid "call" method args timeout

/-- `Executor.initProp`: a `pcall` with action `init` and the `pcall`
default timeout. -/
def Executor.initProp (st : ExecState) (eventThread : Bool) (oracle : Oracle)
    (ffid : Nat) (method : Key) (args : PcallArgs) : PcallTrace :=
  Executor.pcall st eventThread oracle ffid "init" method args

/-- `Executor.keys`: an `ipc` `keys` round trip returning `resp["keys"]`. -/
def Executor.keys (st : ExecState) (eventThread : Bool) (oracle : Oracle)
    (ffid : Nat) : IpcTrace × Except BridgeError (List String) :=
  let tr := Executor.ipc st.i "keys" ffid (.kstr "") [] eventThread oracle
  (tr, tr.result.map (·.keys))

/-- The reserved internal bookkeeping names of `Proxy.__setattr__`. -/
def INTERNAL_VARS : List String :=
  ["ffid", "_ix", "_exe", "_pffid", "_pname", "_es6", "_resolved", "_Keys"]

/-- A `Proxy`'s identifying fields: its own ffid, the owning-call-target
`_pffid`/`_pname` pair, and the ES6-constructor flag.  `Proxy.__init__`
sets `_pffid` to `prop_ffid` when given, else to `ffid`. -/
structure Proxy where
  ffid : Nat
  pffid : Nat
  pname : Key
  es6 : Bool
deriving DecidableEq, Repr

/-- The wire protocol sends FFIDs as integers; this is the numeric reading
of a response `val` used where the code stores it as an ffid. -/
def ffidOf : PyVal → Nat
  | .vint n => n.toNat
  | _ => 0

/-- What a decoded response yields to Python: a new `Proxy`, the `None`
of a `void` result, a locally-owned object resolved from `bridge.m`, or a
primitive passed through unchanged. -/
inductive CallResult where
  | proxy (p : Proxy)
  | nothing
  | pyLocal (v : PyVal)
  | value (v : PyVal)
deriving DecidableEq, Repr

/-- `x is None` on a decoded result. -/
def CallResult.isNone : CallResult → Bool
  | .nothing => true
  | .value .vnone => true
  | .pyLocal .vnone => true
  | _ => false

/-- `Proxy._call`: decode a `(methodType, val)` pair.  `fn` wraps `val` as
a Proxy bound to the calling Proxy's own `ffid` and the accessed name;
`class` wraps it as an ES6-constructor Proxy; `obj`/`inst` wrap it as a
plain Proxy; `void` yields `None`; `py` resolves `val` through
`bridge.m` (`Executor.get`); anything else is the primitive itself. -/
def Proxy.call_ (m : List (Nat × PyVal)) (p : Proxy) (method : Key)
    (methodType : String) (val : PyVal) : Except BridgeError CallResult :=
  if methodType = "fn" then .ok (.proxy ⟨ffidOf val, p.ffid, method, false⟩)
  else if methodType = "class" then .ok (.proxy ⟨ffidOf val, ffidOf val, .kstr "", true⟩)
  else if methodType = "obj" then .ok (.proxy ⟨ffidOf val, ffidOf val, .kstr "", false⟩)
  else if methodType = "inst" then .ok (.proxy ⟨ffidOf val, ffidOf val, .kstr "", false⟩)
  else if methodType = "void" then .ok .nothing
  else if methodType = "py" then
    match dlookup m (ffidOf val) with
    | some v => .ok (.pyLocal v)
    | none => .error (.keyError (ffidOf val))
  else .ok (.value val)

/-- `Proxy.__call__`: `initProp` when the Proxy is an ES6 class reference,
else `callProp` with the given timeout (default 10); an `fn` result wraps
as a fresh unbound Proxy, anything else decodes through `Proxy._call`. -/
def Proxy.invoke (st : ExecState) (eventThread : Bool) (oracle : Oracle)
    (p : Proxy) (args : PcallArgs) (timeout : Option Nat := some 10) :
    PcallTrace × Except BridgeError CallResult :=
  let tr :=
    if p.es6 then Executor.initProp st eventThread oracle p.pffid p.pname args
    else Executor.callProp st eventThread oracle p.pffid p.pname args timeout
  let decoded : Except BridgeError CallResult :=
    match tr.result with
    | .error e => .error e
    | .ok (mT, v) =>
      if mT = "fn" then .ok (.proxy ⟨ffidOf v, ffidOf v, .kstr "", false⟩)
      else Proxy.call_ tr.finalState.m p p.pname mT v
  (tr, decoded)

/-- `Proxy.__getattr__`: the sentinel name `new` decodes as a constructor
Proxy without a round trip; any other attribute is a `getProp` against
`_pffid` decoded through `Proxy._call`. -/
def Proxy.getattr (st : ExecState) (eventThread : Bool) (oracle : Oracle)
    (p : Proxy) (attr : String) : Option IpcTrace × Except BridgeError CallResult :=
  if attr = "new" then
    (none,
      Proxy.call_ st.m p (if p.pffid = p.ffid then p.pname else .kstr "") "class"
        (.vint (Int.ofNat p.pffid)))
  else
    let q := Executor.getProp st eventThread oracle p.pffid (.kstr attr)
    (some q.1,
      match q.2 with
      | .error e => .error e
      | .ok (mT, v) => Proxy.call_ st.m p (.kstr attr) mT v)

/-- `Proxy.__getitem__`: a `getProp` against the Proxy's own `ffid`
decoded through `Proxy._call`. -/
def Proxy.getitem (st : ExecState) (eventThread : Bool) (oracle : Oracle)
    (p : Proxy) (attr : Key) : IpcTrace × Except BridgeError CallResult :=
  let q := Executor.getProp st eventThread oracle p.ffid attr
  (q.1,
    match q.2 with
    | .error e => .error e
    | .ok (mT, v) => Proxy.call_ st.m p attr mT v)

/-- `Proxy.__setattr__`: a reserved internal name is stored locally via
`object.__setattr__` (modelled as the Proxy instance dict) with no message
sent; any other name issues a `setProp` and leaves the instance dict
alone. -/
def Proxy.setattr (st : ExecState) (eventThread : Bool) (oracle : Oracle)
    (p : Proxy) (instDict : List (String × PyVal)) (name : String) (value : PyVal) :
    List (String × PyVal) × Option PcallTrace :=
  if name ∈ INTERNAL_VARS then (dictSet instDict name value, none)
  else (instDict, some (Executor.setProp st eventThread oracle p.ffid (.kstr name) value))

/-- `Proxy.__setitem__`: always a `setProp`. -/
def Proxy.setitem (st : ExecState) (eventThread : Bool) (oracle : Oracle)
    (p : Proxy) (name : Key) (value : PyVal) : PcallTrace :=
  Executor.setProp st eventThread oracle p.ffid name value

/-- `Proxy.__contains__`: `True if self[key] is not None else False`. -/
def Proxy.contains (st : ExecState) (eventThread : Bool) (oracle : Oracle)
    (p : Proxy) (key : Key) : IpcTrace × Except BridgeError Bool :=
  let q := Proxy.getitem st eventThread oracle p key
  (q.1, q.2.map fun cr => !cr.isNone)

/-- The per-iterator state: `self._ix` and the `self._Keys` snapshot. -/
structure IterState where
  ix : Nat
  keysSnapshot : Option (List String)
deriving DecidableEq, Repr

/-- Python truthiness of `self._Keys` (an `Optional[List[str]]`): both
`None` and the empty list are falsy. -/
def keysTruthy : Option (List String) → Bool
  | some (_ :: _) => true
  | _ => false

/-- Python `self._ix < it` for the decoded `length`: defined for numbers,
a `TypeError` for `None`, strings, or Proxies. -/
def ltLength (ix : Nat) (cr : CallResult) : Except BridgeError Bool :=
  match cr with
  | .value (.vint n) => .ok ((ix : Int) < n)
  | .value (.vbool b) => .ok ((ix : Int) < (if b then 1 else 0))
  | .value (.vfloat q) => .ok ((ix : Rat) < q)
  | .pyLocal (.vint n) => .ok ((ix : Int) < n)
  | .pyLocal (.vbool b) => .ok ((ix : Int) < (if b then 1 else 0))
  | .pyLocal (.vfloat q) => .ok ((ix : Rat) < q)
  | _ => .error .typeErrorCmp

/-- The packets queued by an `ipc` trace (one when the action was
recognized). -/
def IpcTrace.packets (tr : IpcTrace) : List Packet :=
  match tr.sent with
  | some pk => [pk]
  | none => []

/-- `Proxy.__iter__`: reset `_ix` to 0; fetch `self.length` (a full
attribute round trip); when it is `None`, fetch the key list once via
`keys` and snapshot it. -/
def Proxy.iterStart (st : ExecState) (eventThread : Bool) (oracle : Oracle)
    (p : Proxy) : ExecState × List Packet × Except BridgeError IterState :=
  let g := Proxy.getattr st eventThread oracle p "length"
  let pk1 := match g.1 with
    | some tr => tr.packets
    | none => []
  let st1 : ExecState := { st with i := match g.1 with
    | some tr => tr.finalI
    | none => st.i }
  match g.2 with
  | .error e => (st1, pk1, .error e)
  | .ok lv =>
    if lv.isNone then
      let k := Executor.keys st1 eventThread oracle p.ffid
      let st2 : ExecState := { st1 with i := k.1.finalI }
      match k.2 with
      | .error e => (st2, pk1 ++ k.1.packets, .error e)
      | .ok ks => (st2, pk1 ++ k.1.packets, .ok ⟨0, some ks⟩)
    else (st1, pk1, .ok ⟨0, none⟩)

/-- One step of iteration. -/
inductive NextOut where
  | yieldKey (s : String)
  | yieldVal (r : CallResult)
  | stop
deriving DecidableEq, Repr

/-- `Proxy.__next__`: when `self._Keys` is truthy, yield the next key of
the snapshot (no round trip) or stop; otherwise re-fetch `self.length`
(a round trip) and compare — yielding `self[self._ix]` via an indexed
`get` while `_ix < length`, stopping at the end, and raising `TypeError`
when the comparison is not between numbers. -/
def Proxy.iterNext (st : ExecState) (eventThread : Bool) (oracle : Oracle)
    (p : Proxy) (it : IterState) :
    ExecState × List Packet × Except BridgeError (NextOut × IterState) :=
  if keysTruthy it.keysSnapshot then
    let ks := it.keysSnapshot.getD []
    if h : it.ix < ks.length then
      (st, [], .ok (.yieldKey (ks.get ⟨it.ix, h⟩), { it with ix := it.ix + 1 }))
    else
      (st, [], .ok (.stop, it))
  else
    let g := Proxy.getattr st eventThread oracle p "length"
    let pk1 := match g.1 with
      | some tr => tr.packets
      | none => []
    let st1 : ExecState := { st with i := match g.1 with
      | some tr => tr.finalI
      | none => st.i }
    match g.2 with
    | .error e => (st1, pk1, .error e)
    | .ok lv =>
      match ltLength it.ix lv with
      | .error e => (st1, pk1, .error e)
      | .ok false => (st1, pk1, .ok (.stop, it))
      | .ok true =>
        let q := Proxy.getitem st1 eventThread oracle p (.kint (Int.ofNat it.ix))
        let st2 : ExecState := { st1 with i := q.1.finalI }
        match q.2 with
        | .error e => (st2, pk1 ++ q.1.packets, .error e)
        | .ok cr => (st2, pk1 ++ q.1.packets, .ok (.yieldVal cr, { it with ix := it.ix + 1 }))

/-- Drive `__next__` until `StopIteration`, an exception, or fuel runs
out, collecting the yielded values and every queued packet. -/
def iterRun (eventThread : Bool) (oracle : Oracle) (p : Proxy) :
    Nat → ExecState → IterState →
    ExecState × List Packet × List NextOut × Option BridgeError
  | 0, st, _ => (st, [], [], none)
  | Nat.succ fuel, st, it =>
    let s := Proxy.iterNext st eventThread oracle p it
    match s.2.2 with
    | .error e => (s.1, s.2.1, [], some e)
    | .ok (.stop, _) => (s.1, s.2.1, [], none)
    | .ok (.yieldKey k, it') =>
      let rest := iterRun eventThread oracle p fuel s.1 it'
      (rest.1, s.2.1 ++ rest.2.1, .yieldKey k :: rest.2.2.1, rest.2.2.2)
    | .ok (.yieldVal v, it') =>
      let rest := iterRun eventThread oracle p fuel s.1 it'
      (rest.1, s.2.1 ++ rest.2.1, .yieldVal v :: rest.2.2.1, rest.2.2.2)

/-- `for x in proxy`: `__iter__` followed by the `__next__` loop. -/
def iterate (st : ExecState) (eventThread : Bool) (oracle : Oracle)
    (p : Proxy) (fuel : Nat) :
    ExecState × List Packet × List NextOut × Option BridgeError :=
  let s := Proxy.iterStart st eventThread oracle p
  match s.2.2 with
  | .error e => (s.1, s.2.1, [], some e)
  | .ok it =>
    let rest := iterRun eventThread oracle p fuel s.1 it
    (rest.1, s.2.1 ++ rest.2.1, rest.2.2)

/-! ## The claims -/

/-- The heap of the force-refs counterexample: one object that already
carries `ffid = 7`. -/
def refsHeap : Heap := [(1, ⟨some 7, false, none⟩)]

/-- Claim C3 fails on the code: in force-refs mode the `ser` closure still
takes the `hasattr(arg, "ffid")` shortcut, so a captured environment value
that already carries an FFID is serialized as an existing `\x7bffid\x7d`
reference, not via the adoption path.  Concretely, with environment
`\x7ba: 5, b: <object with ffid 7>\x7d`, the queued payload holds `a` inlined as
`5` and `b` as a `\x7bffid: 7\x7d` reference, which is not an adoption request. -/
theorem force_refs_keeps_ffid_shortcut :
    (Executor.pcall ⟨0, [], refsHeap⟩ true (fun _ => none) 0 "call" (.kstr "eval")
        (.refs "b" [("a", .vint 5), ("b", .vobj 1)])).sent.args =
      .evalArgs "b" [("a", .inline (.vint 5)), ("b", .ffidRef 7)] ∧
    SerVal.isAdopt (.ffidRef 7) = false := by
  exact ⟨rfl, rfl⟩

/-- Claim C3 (amended): in force-refs mode every int/float/bool/None value
of the captured environment is inlined unchanged; every other value is fed
to the `ser` closure, which serializes it as an existing `\x7bffid\x7d` reference
when it carries an `ffid` attribute and via the adoption path (a fresh
provisional tag recorded in the `wanted` map) only when it does not; and a
force-refs `pcall` queues exactly the environment serialized this way. -/
theorem force_refs_serialization (heap : Heap) (st : SerSt) (v : PyVal) :
    (isEnvPrim v = true → serEnvEntry heap st v = (st, .inline v)) ∧
    (isEnvPrim v = false → ∀ f, argFfid heap v = some f →
      serEnvEntry heap st v = ({ st with ctr := st.ctr + 1 }, .ffidRef f)) ∧
    (isEnvPrim v = false → argFfid heap v = none →
      serEnvEntry heap st v =
        (⟨st.ctr + 1, true, dictSet st.wanted (st.ctr + 1) v⟩, .adoptReq (st.ctr + 1)) ∧
      dlookup (dictSet st.wanted (st.ctr + 1) v) (st.ctr + 1) = some v) ∧
    (∀ st0 et oracle ffid action attr block locals timeout,
      (Executor.pcall st0 et oracle ffid action attr (.refs block locals) timeout).sent.args =
        .evalArgs block (serLocals st0.heap ⟨0, false, []⟩ locals).2) := by
  refine ⟨fun h => ?_, fun h f hf => ?_, fun h hf => ?_, fun st0 et oracle ffid action attr block locals timeout => ?_⟩
  · simp [serEnvEntry, h]
  · simp [serEnvEntry, h, Executor.ser, hf]
  · simp [serEnvEntry, h, Executor.ser, hf, dlookup, dictSet]
  · simp [Executor.pcall, pcallSer]

/-- Witness for the amended C3: a concrete primitive, a concrete
ffid-carrying object, and a concrete unknown object each serialize as the
amended claim states. -/
theorem force_refs_serialization_witness :
    serEnvEntry refsHeap ⟨0, false, []⟩ (.vint 5) = (⟨0, false, []⟩, .inline (.vint 5)) ∧
    serEnvEntry refsHeap ⟨0, false, []⟩ (.vobj 1) = (⟨1, false, []⟩, .ffidRef 7) ∧
    serEnvEntry refsHeap ⟨0, false, []⟩ (.vstr "x") =
      (⟨1, true, [(1, .vstr "x")]⟩, .adoptReq 1) := by
  refine ⟨(force_refs_serialization refsHeap ⟨0, false, []⟩ (.vint 5)).1 (by decide), ?_, ?_⟩
  · exact (force_refs_serialization refsHeap ⟨0, false, []⟩ (.vobj 1)).2.1 (by decide) 7 (by decide)
  · exact ((force_refs_serialization refsHeap ⟨0, false, []⟩ (.vstr "x")).2.2.1 (by decide) (by decide)).1

/-- Claim C8: an attribute write on a Proxy with one of the reserved
internal bookkeeping names is stored purely locally (no trace, the
instance dict updated at exactly that name); a write with any other name
issues a `set` request against the Proxy's ffid and leaves the instance
dict untouched. -/
theorem setattr_internal_vars_local_only (st : ExecState) (et : Bool) (oracle : Oracle)
    (p : Proxy) (instDict : List (String × PyVal)) (name : String) (value : PyVal) :
    (name ∈ INTERNAL_VARS →
      (Proxy.setattr st et oracle p instDict name value).2 = none ∧
      dlookup (Proxy.setattr st et oracle p instDict name value).1 name = some value ∧
      ∀ other, other ≠ name →
        dlookup (Proxy.setattr st et oracle p instDict name value).1 other =
          dlookup instDict other) ∧
    (name ∉ INTERNAL_VARS →
      (Proxy.setattr st et oracle p instDict name value).1 = instDict ∧
      ∃ tr, (Proxy.setattr st et oracle p instDict name value).2 = some tr ∧
        tr.sent.action = "set" ∧ tr.sent.ffid = p.ffid ∧
        tr.sent.key = some (.kstr name)) := by
  constructor
  · intro h
    refine ⟨by simp [Proxy.setattr, h], by simp [Proxy.setattr, h, dictSet, dlookup], ?_⟩
    intro other hne
    simp [Proxy.setattr, h, dictSet, dlookup, Ne.symm hne]
  · intro h
    refine ⟨by simp [Proxy.setattr, h], ?_⟩
    refine ⟨Executor.setProp st et oracle p.ffid (.kstr name) value, by simp [Proxy.setattr, h], ?_, ?_, ?_⟩
      <;> simp [Executor.setProp, Executor.pcall]

/-- Witness for C8: writing the reserved name `ffid` stores locally with
no message; writing the ordinary name `foo` issues a `set` request. -/
theorem setattr_internal_vars_local_only_witness :
    ("ffid" ∈ INTERNAL_VARS ∧
      (Proxy.setattr ⟨0, [], []⟩ true (fun _ => none) ⟨3, 3, .kstr "", false⟩ [] "ffid" (.vint 4)).2 = none ∧
      dlookup (Proxy.setattr ⟨0, [], []⟩ true (fun _ => none) ⟨3, 3, .kstr "", false⟩ [] "ffid" (.vint 4)).1 "ffid" =
        some (.vint 4)) ∧
    ("foo" ∉ INTERNAL_VARS ∧
      ∃ tr, (Proxy.setattr ⟨0, [], []⟩ true (fun _ => none) ⟨3, 3, .kstr "", false⟩ [] "foo" (.vint 4)).2 = some tr ∧
        tr.sent.action = "set" ∧ tr.sent.ffid = 3 ∧ tr.sent.key = some (.kstr "foo")) := by
  have h1 := (setattr_internal_vars_local_only ⟨0, [], []⟩ true (fun _ => none)
    ⟨3, 3, .kstr "", false⟩ [] "ffid" (.vint 4)).1 (by decide)
  have h2 := (setattr_internal_vars_local_only ⟨0, [], []⟩ true (fun _ => none)
    ⟨3, 3, .kstr "", false⟩ [] "foo" (.vint 4)).2 (by decide)
  exact ⟨⟨by decide, h1.1, h1.2.1⟩, ⟨by decide, h2.2⟩⟩

/-- Claim C9: a membership test issues exactly one remote `get` (keyed by
the tested key, against the Proxy's own ffid) and returns `True` iff the
decoded fetched value is not `None`; in particular a present-but-null
attribute answers exactly like an absent one. -/
theorem contains_is_one_get_nonnull (st : ExecState) (et : Bool) (oracle : Oracle)
    (p : Proxy) (key : Key) (t : Nat) (res : Resp) (cr : CallResult)
    (hres : oracle (st.i + 1) = some (t, res)) (ht : t ≤ 10)
    (herr : res.error = none)
    (hdec : Proxy.call_ st.m p key res.key res.val = .ok cr) :
    (Proxy.contains st et oracle p key).1.sent =
      some ⟨st.i + 1, "get", p.ffid, some key, .noArgs, none⟩ ∧
    (Proxy.contains st et oracle p key).2 = .ok (!cr.isNone) ∧
    ((Proxy.contains st et oracle p key).2 = .ok true ↔ cr.isNone = false) := by
  have hsent : (Proxy.contains st et oracle p key).1.sent =
      some ⟨st.i + 1, "get", p.ffid, some key, .noArgs, none⟩ := by
    simp [Proxy.contains, Proxy.getitem, Executor.getProp, Executor.ipc, ipcPacket]
  have hval : (Proxy.contains st et oracle p key).2 = .ok (!cr.isNone) := by
    simp [Proxy.contains, Proxy.getitem, Executor.getProp, Executor.ipc, ipcPacket,
      hres, lockWait, ht, herr, Except.map, hdec]
  refine ⟨hsent, hval, ?_⟩
  rw [hval]
  cases h : cr.isNone <;> simp [h]

/-- Witness for C9: a key whose remote value is the string `"x"` tests as
present; a key whose remote value is `null` (kind `void`) tests exactly
like an absent one, `False`. -/
theorem contains_is_one_get_nonnull_witness :
    (Proxy.contains ⟨0, [], []⟩ true (fun _ => some (1, { key := "string", val := .vstr "x" }))
        ⟨3, 3, .kstr "", false⟩ (.kstr "k")).2 = .ok true ∧
    (Proxy.contains ⟨0, [], []⟩ true (fun _ => some (1, { key := "void", val := .vnone }))
        ⟨3, 3, .kstr "", false⟩ (.kstr "k")).2 = .ok false := by
  have h1 := contains_is_one_get_nonnull ⟨0, [], []⟩ true
    (fun _ => some (1, { key := "string", val := .vstr "x" })) ⟨3, 3, .kstr "", false⟩
    (.kstr "k") 1 { key := "string", val := .vstr "x" } (.value (.vstr "x"))
    rfl (by decide) rfl rfl
  have h2 := contains_is_one_get_nonnull ⟨0, [], []⟩ true
    (fun _ => some (1, { key := "void", val := .vnone })) ⟨3, 3, .kstr "", false⟩
    (.kstr "k") 1 { key := "void", val := .vnone } .nothing
    rfl (by decide) rfl rfl
  exact ⟨h1.2.1, h2.2.1⟩

/-- Claim C10: a Proxy invocation through `__call__` waits on the call
result with its default 10-second timeout, while `setProp` (attribute and
index writes) and `initProp` (ES6 construction) call `pcall` with its
default timeout of 1000 seconds; a `set` whose responses never arrive
therefore fails only after a wait bounded by 1000, with a timeout error. -/
theorem set_and_init_use_pcall_default_timeout :
    (∀ st et oracle (p : Proxy) args, p.es6 = false →
      (Proxy.invoke st et oracle p args).1.waitBound = some 10) ∧
    (∀ st et oracle ffid method val,
      (Executor.setProp st et oracle ffid method val).waitBound = some 1000) ∧
    (∀ st et oracle ffid method args,
      (Executor.initProp st et oracle ffid method args).waitBound = some 1000) ∧
    (∀ st et ffid method val,
      ∃ e, (Executor.setProp st et (fun _ => none) ffid method val).result = .error e ∧
        (e = .execTimeout ∨ e = .callTimeout method)) := by
  refine ⟨fun st et oracle p args h6 => ?_, fun st et oracle ffid method val => ?_,
    fun st et oracle ffid method args => ?_, fun st et ffid method val => ?_⟩
  · simp [Proxy.invoke, h6, Executor.callProp, Executor.pcall]
  · simp [Executor.setProp, Executor.pcall]
  · simp [Executor.initProp, Executor.pcall]
  · by_cases h : (pcallSer st.heap (.normal [val])).1.expectReply
    · exact ⟨.execTimeout, by simp [Executor.setProp, Executor.pcall, h, lockWait], Or.inl rfl⟩
    · exact ⟨.callTimeout method, by simp [Executor.setProp, Executor.pcall, h, lockWait], Or.inr rfl⟩

/-- Witness for C10: at a concrete state, a plain Proxy call uses the
10-second bound, a concrete `setProp`/`initProp` use the 1000-second
bound, and a `setProp` with no responses at all raises a timeout error. -/
theorem set_and_init_use_pcall_default_timeout_witness :
    (Proxy.invoke ⟨0, [], []⟩ true (fun _ => none) ⟨3, 3, .kstr "f", false⟩
      (.normal [])).1.waitBound = some 10 ∧
    (Executor.setProp ⟨0, [], []⟩ true (fun _ => none) 3 (.kstr "k") (.vint 1)).waitBound =
      some 1000 ∧
    (Executor.initProp ⟨0, [], []⟩ true (fun _ => none) 3 (.kstr "C")
      (.normal [])).waitBound = some 1000 ∧
    ∃ e, (Executor.setProp ⟨0, [], []⟩ true (fun _ => none) 3 (.kstr "k") (.vint 1)).result =
        .error e ∧ (e = .execTimeout ∨ e = .callTimeout (.kstr "k")) := by
  exact ⟨set_and_init_use_pcall_default_timeout.1 ⟨0, [], []⟩ true (fun _ => none)
      ⟨3, 3, .kstr "f", false⟩ (.normal []) rfl,
    set_and_init_use_pcall_default_timeout.2.1 ⟨0, [], []⟩ true (fun _ => none) 3 (.kstr "k") (.vint 1),
    set_and_init_use_pcall_default_timeout.2.2.1 ⟨0, [], []⟩ true (fun _ => none) 3 (.kstr "C") (.normal []),
    set_and_init_use_pcall_default_timeout.2.2.2 ⟨0, [], []⟩ true 3 (.kstr "k") (.vint 1)⟩

/-- Claim C6: a recognized `ipc` request waits at most the fixed bound of
10 seconds; when no response is fulfilled within it, the call raises the
timeout error and prints a diagnostic naming the action, the target FFID
and the attribute, preceded by the special dead notice when the background
event thread is known dead. -/
theorem ipc_fixed_ten_second_timeout (i : Nat) (action : String) (ffid : Nat) (attr : Key)
    (args : List PyVal) (et : Bool) (oracle : Oracle)
    (hact : (ipcPacket (i + 1) action ffid attr args).isSome)
    (hlate : ∀ t res, oracle (i + 1) = some (t, res) → 10 < t) :
    (Executor.ipc i action ffid attr args et oracle).waitBound = 10 ∧
    (Executor.ipc i action ffid attr args et oracle).result = .error (.timeoutAccess attr) ∧
    Diag.timedOut action ffid attr et ∈ (Executor.ipc i action ffid attr args et oracle).printed ∧
    (et = false → Diag.deadNotice ∈ (Executor.ipc i action ffid attr args et oracle).printed) := by
  obtain ⟨pk, hpk⟩ := Option.isSome_iff_exists.mp hact
  have hwait : lockWait (some 10) (oracle (i + 1)) = .timedOut := by
    cases hres : oracle (i + 1) with
    | none => simp [lockWait]
    | some tr =>
      obtain ⟨t, res⟩ := tr
      have := hlate t res hres
      simp [lockWait, Nat.not_le.mpr this]
  refine ⟨rfl, ?_, ?_, ?_⟩
  · simp [Executor.ipc, hpk, hwait]
  · cases et <;> simp [Executor.ipc, hpk, hwait]
  · intro h
    subst h
    simp [Executor.ipc, hpk, hwait]

/-- Witness for C6: a concrete `get` with a response arriving too late
(at 11 seconds) and a dead event thread times out with the full
diagnostics. -/
theorem ipc_fixed_ten_second_timeout_witness :
    (ipcPacket 1 "get" 3 (.kstr "k") []).isSome = true ∧
    (Executor.ipc 0 "get" 3 (.kstr "k") [] false
      (fun _ => some (11, {}))).result = .error (.timeoutAccess (.kstr "k")) ∧
    Diag.timedOut "get" 3 (.kstr "k") false ∈
      (Executor.ipc 0 "get" 3 (.kstr "k") [] false (fun _ => some (11, {}))).printed ∧
    Diag.deadNotice ∈
      (Executor.ipc 0 "get" 3 (.kstr "k") [] false (fun _ => some (11, {}))).printed := by
  have h := ipc_fixed_ten_second_timeout 0 "get" 3 (.kstr "k") [] false
    (fun _ => some (11, {})) (by decide) (fun t res hres => by
      simp at hres
      omega)
  exact ⟨by decide, h.2.1, h.2.2.1, h.2.2.2 rfl⟩

/-- Claim C5: whenever the matched response of an `ipc` request, of the
FFID-assignment phase of a `pcall`, or of the call-result phase of a
`pcall` carries an `error` field, the Executor raises
`JavaScriptError(attr, payload)` — a typed error carrying the accessed
name and the structured remote payload — and the operation yields no
value. -/
theorem remote_error_raises_javascript_error :
    (∀ i action ffid attr args et oracle t res e,
      (ipcPacket (i + 1) action ffid attr args).isSome →
      oracle (i + 1) = some (t, res) → t ≤ 10 → res.error = some e →
      (Executor.ipc i action ffid attr args et oracle).result = .error (.jsError attr e)) ∧
    (∀ st et oracle ffid action attr args timeout pre e,
      (pcallSer st.heap args).1.expectReply = true →
      lockWait timeout (oracle (st.i + 2)) = .fulfilled pre → pre.error = some e →
      (Executor.pcall st et oracle ffid action attr args timeout).result =
        .error (.jsError attr e)) ∧
    (∀ st et oracle ffid action attr args timeout res e,
      (pcallSer st.heap args).1.expectReply = false →
      lockWait timeout (oracle (st.i + 1)) = .fulfilled res → res.error = some e →
      (Executor.pcall st et oracle ffid action attr args timeout).result =
        .error (.jsError attr e)) ∧
    (∀ st et oracle ffid action attr args timeout pre res e,
      (pcallSer st.heap args).1.expectReply = true →
      lockWait timeout (oracle (st.i + 2)) = .fulfilled pre → pre.error = none →
      (applyAdoption (pcallSer st.heap args).1.wanted pre.valMap st.m st.heap).2.2 = none →
      lockWait timeout (oracle (st.i + 1)) = .fulfilled res → res.error = some e →
      (Executor.pcall st et oracle ffid action attr args timeout).result =
        .error (.jsError attr e)) := by
  refine ⟨?_, ?_, ?_, ?_⟩
  · intro i action ffid attr args et oracle t res e hact hres ht herr
    obtain ⟨pk, hpk⟩ := Option.isSome_iff_exists.mp hact
    simp [Executor.ipc, hpk, hres, lockWait, ht, herr]
  · intro st et oracle ffid action attr args timeout pre e hrep hwait herr
    simp [Executor.pcall, hrep, hwait, herr]
  · intro st et oracle ffid action attr args timeout res e hrep hwait herr
    simp [Executor.pcall, hrep, hwait, herr]
  · intro st et oracle ffid action attr args timeout pre res e hrep hwaitF hpe hadopt hwaitC herr
    simp [Executor.pcall, hrep, hwaitF, hpe, hadopt, hwaitC, herr]

/-- Witness for C5: a concrete `ipc` `get` whose response carries an error
payload raises `JavaScriptError` with the attribute and that payload, and
so does a concrete `pcall` in each of its two phases. -/
theorem remote_error_raises_javascript_error_witness :
    (Executor.ipc 0 "get" 3 (.kstr "k") [] true
      (fun _ => some (0, { error := some ⟨"boom"⟩ }))).result =
      .error (.jsError (.kstr "k") ⟨"boom"⟩) ∧
    (Executor.pcall ⟨0, [], [(1, ⟨none, false, none⟩)]⟩ true
      (fun _ => some (0, { error := some ⟨"boom"⟩ })) 0 "call" (.kstr "f")
      (.normal [.vobj 1])).result = .error (.jsError (.kstr "f") ⟨"boom"⟩) ∧
    (Executor.pcall ⟨0, [], []⟩ true
      (fun _ => some (0, { error := some ⟨"boom"⟩ })) 0 "call" (.kstr "f")
      (.normal [.vint 2])).result = .error (.jsError (.kstr "f") ⟨"boom"⟩) := by
  refine ⟨remote_error_raises_javascript_error.1 0 "get" 3 (.kstr "k") [] true
      (fun _ => some (0, { error := some ⟨"boom"⟩ })) 0 _ ⟨"boom"⟩ (by decide) rfl
      (by decide) rfl, ?_, ?_⟩
  · exact remote_error_raises_javascript_error.2.1 ⟨0, [], [(1, ⟨none, false, none⟩)]⟩ true
      (fun _ => some (0, { error := some ⟨"boom"⟩ })) 0 "call" (.kstr "f")
      (.normal [.vobj 1]) (some 1000) { error := some ⟨"boom"⟩ } ⟨"boom"⟩
      (by decide) (by decide) rfl
  · exact remote_error_raises_javascript_error.2.2.1 ⟨0, [], []⟩ true
      (fun _ => some (0, { error := some ⟨"boom"⟩ })) 0 "call" (.kstr "f")
      (.normal [.vint 2]) (some 1000) { error := some ⟨"boom"⟩ } ⟨"boom"⟩
      (by decide) (by decide) rfl

/-- Claim C4: decoding a response of kind `fn` yields a Proxy bound to the
calling Proxy's own ffid and the accessed name, whose subsequent
invocation queues a `call` request against exactly that ffid and name;
kind `void` yields `None`; and kind `py` yields the locally-owned object
looked up in the Executor's reference map, not a new Proxy. -/
theorem result_kind_decoding (m : List (Nat × PyVal)) (p : Proxy) (method : Key)
    (f : Nat) (v w : PyVal) (st : ExecState) (et : Bool) (oracle : Oracle)
    (args : PcallArgs) (timeout : Option Nat) :
    (Proxy.call_ m p method "fn" (.vint (Int.ofNat f)) =
      .ok (.proxy ⟨f, p.ffid, method, false⟩)) ∧
    ((Proxy.invoke st et oracle ⟨f, p.ffid, method, false⟩ args timeout).1.sent.action = "call" ∧
      (Proxy.invoke st et oracle ⟨f, p.ffid, method, false⟩ args timeout).1.sent.ffid = p.ffid ∧
      (Proxy.invoke st et oracle ⟨f, p.ffid, method, false⟩ args timeout).1.sent.key = some method) ∧
    (Proxy.call_ m p method "void" v = .ok .nothing) ∧
    (dlookup m f = some w →
      Proxy.call_ m p method "py" (.vint (Int.ofNat f)) = .ok (.pyLocal w)) := by
  refine ⟨by simp [Proxy.call_, ffidOf], ?_, by simp [Proxy.call_], ?_⟩
  · refine ⟨?_, ?_, ?_⟩ <;>
      simp [Proxy.invoke, Executor.callProp, Executor.pcall]
  · intro hw
    simp [Proxy.call_, ffidOf, hw]

/-- Witness for C4: with `bridge.m = [(4, "hello")]`, the three kinds
decode concretely as the claim states, and invoking the `fn` Proxy queues
a `call` against the original ffid 3 and name `f`. -/
theorem result_kind_decoding_witness :
    Proxy.call_ [(4, .vstr "hello")] ⟨3, 3, .kstr "", false⟩ (.kstr "f") "fn" (.vint 9) =
      .ok (.proxy ⟨9, 3, .kstr "f", false⟩) ∧
    (Proxy.invoke ⟨0, [], []⟩ true (fun _ => none) ⟨9, 3, .kstr "f", false⟩
        (.normal []) (some 10)).1.sent.action = "call" ∧
    (Proxy.invoke ⟨0, [], []⟩ true (fun _ => none) ⟨9, 3, .kstr "f", false⟩
        (.normal []) (some 10)).1.sent.ffid = 3 ∧
    Proxy.call_ [(4, .vstr "hello")] ⟨3, 3, .kstr "", false⟩ (.kstr "f") "void" .vnone =
      .ok .nothing ∧
    Proxy.call_ [(4, .vstr "hello")] ⟨3, 3, .kstr "", false⟩ (.kstr "f") "py" (.vint 4) =
      .ok (.pyLocal (.vstr "hello")) := by
  have h := result_kind_decoding [(4, .vstr "hello")] ⟨3, 3, .kstr "", false⟩ (.kstr "f")
    9 .vnone (.vstr "hello") ⟨0, [], []⟩ true (fun _ => none) (.normal []) (some 10)
  have h4 := result_kind_decoding [(4, .vstr "hello")] ⟨3, 3, .kstr "", false⟩ (.kstr "f")
    4 .vnone (.vstr "hello") ⟨0, [], []⟩ true (fun _ => none) (.normal []) (some 10)
  exact ⟨h.1, h.2.1.1, h.2.1.2.1, h.2.2.1, h4.2.2.2 rfl⟩

/-- The oracle of the C7 failing run: the remote object has no numeric
`length` (every `get length` answers `void`) and its `keys` reply is the
empty list. -/
def emptyKeysOracle : Oracle := fun r =>
  if r = 1 then some (0, { key := "void", val := .vnone })
  else if r = 2 then some (0, { keys := [] })
  else if r = 3 then some (0, { key := "void", val := .vnone })
  else none

/-- Claim C7 names the intended behavior, but the code checks `self._Keys`
by truthiness instead of `is not None`: on a Proxy without a numeric
`length` whose `keys` round trip returns the empty list, the first
`__next__` falls into the `self._ix < self.length` branch, issues a
further `get length` round trip, and raises `TypeError` (`int < None`)
instead of `StopIteration`.  This run shows it: the iteration yields
nothing, sends `get length`, `keys`, and then the extra `get length`, and
ends in the comparison `TypeError`. -/
theorem empty_keys_iteration_raises_type_error :
    (iterate ⟨0, [], []⟩ true emptyKeysOracle ⟨5, 5, .kstr "", false⟩ 10).2.2 =
      ([], some .typeErrorCmp) ∧
    (iterate ⟨0, [], []⟩ true emptyKeysOracle ⟨5, 5, .kstr "", false⟩ 10).2.1 =
      [⟨1, "get", 5, some (.kstr "length"), .noArgs, none⟩,
        ⟨2, "keys", 5, none, .noArgs, none⟩,
        ⟨3, "get", 5, some (.kstr "length"), .noArgs, none⟩] := by
  exact ⟨rfl, rfl⟩

/-- One Executor operation of a session: a simple `ipc` request or a
two-phase `pcall`. -/
inductive BridgeOp where
  | ipcOp (action : String) (ffid : Nat) (attr : Key) (args : List PyVal)
  | pcallOp (ffid : Nat) (action : String) (attr : Key) (args : PcallArgs) (timeout : Option Nat)

/-- Run one operation through the executor, collecting the correlation
IDs it consumed: one for an `ipc` request, the call-result ID and the
FFID-assignment ID for a `pcall`. -/
def opStep (et : Bool) (oracle : Oracle) (st : ExecState) : BridgeOp → ExecState × List Nat
  | .ipcOp action ffid attr args =>
    let tr := Executor.ipc st.i action ffid attr args et oracle
    ({ st with i := tr.finalI }, [tr.reqId])
  | .pcallOp ffid action attr args timeout =>
    let tr := Executor.pcall st et oracle ffid action attr args timeout
    (tr.finalState, [tr.callRespId, tr.ffidRespId])

/-- Run a sequence of operations, collecting every correlation ID in
issue order. -/
def opsRun (et : Bool) (oracle : Oracle) : ExecState → List BridgeOp → ExecState × List Nat
  | st, [] => (st, [])
  | st, op :: rest =>
    let s := opStep et oracle st op
    let r := opsRun et oracle s.1 rest
    (r.1, s.2 ++ r.2)

theorem opStep_ids (et : Bool) (oracle : Oracle) (st : ExecState) (op : BridgeOp) :
    (∀ id ∈ (opStep et oracle st op).2, st.i < id ∧ id ≤ (opStep et oracle st op).1.i) ∧
    List.Pairwise (· < ·) (opStep et oracle st op).2 ∧
    st.i ≤ (opStep et oracle st op).1.i := by
  cases op <;> simp [opStep, Executor.ipc, Executor.pcall]

theorem opsRun_ids (et : Bool) (oracle : Oracle) :
    ∀ (ops : List BridgeOp) (st : ExecState),
    (∀ id ∈ (opsRun et oracle st ops).2, st.i < id ∧ id ≤ (opsRun et oracle st ops).1.i) ∧
    List.Pairwise (· < ·) (opsRun et oracle st ops).2 ∧
    st.i ≤ (opsRun et oracle st ops).1.i := by
  intro ops
  induction ops with
  | nil => intro st; simp [opsRun]
  | cons op rest ih =>
    intro st
    obtain ⟨hstep, hpw, hmono⟩ := opStep_ids et oracle st op
    obtain ⟨ihb, ihpw, ihmono⟩ := ih (opStep et oracle st op).1
    have hrun : opsRun et oracle st (op :: rest) =
        ((opsRun et oracle (opStep et oracle st op).1 rest).1,
          (opStep et oracle st op).2 ++ (opsRun et oracle (opStep et oracle st op).1 rest).2) := rfl
    rw [hrun]
    refine ⟨?_, ?_, ?_⟩
    · intro id hid
      rcases List.mem_append.mp hid with h | h
      · exact ⟨(hstep id h).1, le_trans (hstep id h).2 ihmono⟩
      · exact ⟨lt_of_le_of_lt hmono (ihb id h).1, (ihb id h).2⟩
    · refine List.pairwise_append.mpr ⟨hpw, ihpw, ?_⟩
      intro a ha b hb
      exact lt_of_le_of_lt (hstep a ha).2 (ihb b hb).1
    · exact le_trans hmono ihmono

/-- Claim C1: across any sequence of `ipc` and `pcall` operations through
one Executor, the correlation IDs are issued in strictly increasing order
(hence each is fresh, never reused) and each exceeds the counter value at
the start of the sequence; an `ipc` request consumes the single ID
`i + 1`, and a `pcall` consumes the two IDs `i + 1` (call result) and
`i + 2` (FFID assignment). -/
theorem correlation_ids_fresh_and_increasing (et : Bool) (oracle : Oracle)
    (st : ExecState) (ops : List BridgeOp) :
    List.Pairwise (· < ·) (opsRun et oracle st ops).2 ∧
    (∀ id ∈ (opsRun et oracle st ops).2, st.i < id) ∧
    (∀ action ffid attr args,
      (Executor.ipc st.i action ffid attr args et oracle).reqId = st.i + 1 ∧
      (Executor.ipc st.i action ffid attr args et oracle).finalI = st.i + 1) ∧
    (∀ ffid action attr args timeout,
      (Executor.pcall st et oracle ffid action attr args timeout).callRespId = st.i + 1 ∧
      (Executor.pcall st et oracle ffid action attr args timeout).ffidRespId = st.i + 2 ∧
      (Executor.pcall st et oracle ffid action attr args timeout).finalState.i = st.i + 2) := by
  obtain ⟨hb, hpw, _⟩ := opsRun_ids et oracle ops st
  exact ⟨hpw, fun id hid => (hb id hid).1,
    fun action ffid attr args => ⟨rfl, rfl⟩,
    fun ffid action attr args timeout => ⟨rfl, rfl, rfl⟩⟩

theorem dlookup_dictSet_self {κ α : Type} [DecidableEq κ] (m : List (κ × α)) (k : κ) (v : α) :
    dlookup (dictSet m k v) k = some v := by
  simp [dictSet, dlookup]

theorem dlookup_dictSet_other {κ α : Type} [DecidableEq κ] (m : List (κ × α)) (k k' : κ)
    (v : α) (h : k ≠ k') : dlookup (dictSet m k v) k' = dlookup m k' := by
  simp [dictSet, dlookup, h]

theorem dlookup_mem {κ α : Type} [DecidableEq κ] :
    ∀ (m : List (κ × α)) (k : κ) (v : α), dlookup m k = some v → (k, v) ∈ m := by
  intro m
  induction m with
  | nil => intro k v h; simp [dlookup] at h
  | cons e rest ih =>
    intro k v h
    obtain ⟨ek, ev⟩ := e
    rw [dlookup] at h
    by_cases he : ek = k
    · subst he
      simp at h
      subst h
      exact List.mem_cons_self _ _
    · rw [if_neg he] at h
      exact List.mem_cons_of_mem _ (ih k v h)

/-- All provisional tags recorded so far are bounded by the counter, so a
fresh tag never shadows an existing `wanted` entry. -/
def wellTagged (st : SerSt) : Prop := ∀ e ∈ st.wanted, e.1 ≤ st.ctr

theorem ser_step (heap : Heap) (st : SerSt) (a : PyVal) :
    st.ctr ≤ (Executor.ser heap st a).1.ctr ∧
    (wellTagged st → wellTagged (Executor.ser heap st a).1) ∧
    (wellTagged st → ∀ t v, dlookup st.wanted t = some v →
      dlookup (Executor.ser heap st a).1.wanted t = some v) ∧
    (st.expectReply = true → (Executor.ser heap st a).1.expectReply = true) ∧
    (argFfid heap a = none →
      Executor.ser heap st a =
        (⟨st.ctr + 1, true, dictSet st.wanted (st.ctr + 1) a⟩, .adoptReq (st.ctr + 1))) := by
  cases hf : argFfid heap a with
  | some f =>
    have hEq : Executor.ser heap st a = ({ st with ctr := st.ctr + 1 }, .ffidRef f) := by
      simp [Executor.ser, hf]
    refine ⟨?_, ?_, ?_, ?_, ?_⟩
    · rw [hEq]; exact Nat.le_succ _
    · rw [hEq]; intro hw e he; exact le_trans (hw e he) (Nat.le_succ _)
    · rw [hEq]; intro _ t v hv; exact hv
    · rw [hEq]; intro h; exact h
    · intro hn; simp [hf] at hn
  | none =>
    have hEq : Executor.ser heap st a =
        (⟨st.ctr + 1, true, dictSet st.wanted (st.ctr + 1) a⟩, .adoptReq (st.ctr + 1)) := by
      simp [Executor.ser, hf]
    refine ⟨?_, ?_, ?_, ?_, fun _ => hEq⟩
    · rw [hEq]; exact Nat.le_succ _
    · rw [hEq]
      intro hw e he
      rcases (by simpa [dictSet] using he : e = (st.ctr + 1, a) ∨ e ∈ st.wanted) with rfl | hmem
      · exact le_refl _
      · exact le_trans (hw e hmem) (Nat.le_succ _)
    · rw [hEq]
      intro hw t v hv
      have ht : t ≤ st.ctr := hw (t, v) (dlookup_mem _ _ _ hv)
      calc dlookup (dictSet st.wanted (st.ctr + 1) a) t
          = dlookup st.wanted t := dlookup_dictSet_other _ _ _ _ (by omega)
        _ = some v := hv
    · rw [hEq]; intro _; rfl

theorem serArgsJson_cons (heap : Heap) (st : SerSt) (a : PyVal) (rest : List PyVal) :
    serArgsJson heap st (a :: rest) =
      ((serArgsJson heap
          ((if isJsonInline a then (st, SerVal.inline a) else Executor.ser heap st a).1) rest).1,
        (if isJsonInline a then (st, SerVal.inline a) else Executor.ser heap st a).2 ::
          (serArgsJson heap
            ((if isJsonInline a then (st, SerVal.inline a) else Executor.ser heap st a).1) rest).2) :=
  rfl

theorem serArgsJson_invariants (heap : Heap) :
    ∀ (l : List PyVal) (st : SerSt),
    st.ctr ≤ (serArgsJson heap st l).1.ctr ∧
    (wellTagged st → wellTagged (serArgsJson heap st l).1) ∧
    (wellTagged st → ∀ t v, dlookup st.wanted t = some v →
      dlookup (serArgsJson heap st l).1.wanted t = some v) ∧
    (st.expectReply = true → (serArgsJson heap st l).1.expectReply = true) := by
  intro l
  induction l with
  | nil => intro st; exact ⟨le_refl _, fun h => h, fun _ t v hv => hv, fun h => h⟩
  | cons a rest ih =>
    intro st
    rw [serArgsJson_cons]
    by_cases hi : isJsonInline a
    · rw [if_pos hi]
      exact ih st
    · rw [if_neg hi]
      obtain ⟨hm, hw, hl, he, _⟩ := ser_step heap st a
      obtain ⟨ihm, ihw, ihl, ihe⟩ := ih (Executor.ser heap st a).1
      exact ⟨le_trans hm ihm, fun h => ihw (hw h),
        fun h t v hv => ihl (hw h) t v (hl h t v hv), fun h => ihe (he h)⟩

theorem serArgsJson_adopts (heap : Heap) :
    ∀ (l : List PyVal) (st : SerSt), wellTagged st →
    ∀ (oid : Nat), PyVal.vobj oid ∈ l → argFfid heap (.vobj oid) = none →
    ∃ t, dlookup (serArgsJson heap st l).1.wanted t = some (.vobj oid) ∧
      SerVal.adoptReq t ∈ (serArgsJson heap st l).2 ∧
      (serArgsJson heap st l).1.expectReply = true := by
  intro l
  induction l with
  | nil => intro st _ oid h; simp at h
  | cons a rest ih =>
    intro st hw oid hmem hnof
    rw [serArgsJson_cons]
    rcases List.mem_cons.mp hmem with rfl | hmem'
    · have hi : isJsonInline (.vobj oid) = false := rfl
      rw [if_neg (by simp [hi])]
      have hser := (ser_step heap st (.vobj oid)).2.2.2.2 hnof
      rw [hser]
      set st1 : SerSt := ⟨st.ctr + 1, true, dictSet st.wanted (st.ctr + 1) (.vobj oid)⟩ with hst1
      have hw1 : wellTagged st1 := by
        intro e he
        rcases (by simpa [hst1, dictSet] using he :
            e = (st.ctr + 1, PyVal.vobj oid) ∨ e ∈ st.wanted) with rfl | hmem2
        · exact le_refl _
        · exact le_trans (hw e hmem2) (Nat.le_succ _)
      obtain ⟨_, hwp, hlp, hep⟩ := serArgsJson_invariants heap rest st1
      refine ⟨st.ctr + 1, ?_, ?_, ?_⟩
      · exact hlp hw1 (st.ctr + 1) (.vobj oid) (dlookup_dictSet_self _ _ _)
      · exact List.mem_cons_self _ _
      · exact hep rfl
    · by_cases hi : isJsonInline a
      · rw [if_pos hi]
        obtain ⟨t, h1, h2, h3⟩ := ih st hw oid hmem' hnof
        exact ⟨t, h1, List.mem_cons_of_mem _ h2, h3⟩
      · rw [if_neg hi]
        obtain ⟨_, hwp, _, _⟩ := ser_step heap st a
        obtain ⟨t, h1, h2, h3⟩ := ih (Executor.ser heap st a).1 (hwp hw) oid hmem' hnof
        exact ⟨t, h1, List.mem_cons_of_mem _ h2, h3⟩

theorem applyAdoption_m_preserve (wanted : List (Nat × PyVal)) (v : PyVal) (f : Nat) :
    ∀ (reply : List (Nat × Nat)) (m : List (Nat × PyVal)) (heap : Heap),
    (∀ e ∈ reply, (dlookup wanted e.1).isSome) →
    (∀ e ∈ reply, e.2 = f → dlookup wanted e.1 = some v) →
    dlookup m f = some v →
    dlookup (applyAdoption wanted reply m heap).1 f = some v := by
  intro reply
  induction reply with
  | nil => intro m heap _ _ hm; simpa [applyAdoption] using hm
  | cons e rest ih =>
    intro m heap hall huniq hm
    obtain ⟨t0, f0⟩ := e
    obtain ⟨v0, hv0⟩ := Option.isSome_iff_exists.mp (hall (t0, f0) (List.mem_cons_self _ _))
    simp only [applyAdoption, hv0]
    apply ih
    · intro e he; exact hall e (List.mem_cons_of_mem _ he)
    · intro e he hef; exact huniq e (List.mem_cons_of_mem _ he) hef
    · by_cases hf : f0 = f
      · subst hf
        have hv : dlookup wanted t0 = some v := huniq (t0, f0) (List.mem_cons_self _ _) rfl
        have : v0 = v := by rw [hv0] at hv; exact Option.some.inj hv
        subst this
        exact dlookup_dictSet_self _ _ _
      · rw [dlookup_dictSet_other _ _ _ _ hf]
        exact hm

theorem applyAdoption_m_lookup (wanted : List (Nat × PyVal)) (v : PyVal) (t f : Nat) :
    ∀ (reply : List (Nat × Nat)) (m : List (Nat × PyVal)) (heap : Heap),
    (∀ e ∈ reply, (dlookup wanted e.1).isSome) →
    (∀ e ∈ reply, e.2 = f → dlookup wanted e.1 = some v) →
    (t, f) ∈ reply → dlookup wanted t = some v →
    dlookup (applyAdoption wanted reply m heap).1 f = some v := by
  intro reply
  induction reply with
  | nil => intro m heap _ _ hmem _; simp at hmem
  | cons e rest ih =>
    intro m heap hall huniq hmem hv
    obtain ⟨t0, f0⟩ := e
    obtain ⟨v0, hv0⟩ := Option.isSome_iff_exists.mp (hall (t0, f0) (List.mem_cons_self _ _))
    simp only [applyAdoption, hv0]
    rcases List.mem_cons.mp hmem with heq | hmem'
    · obtain ⟨rfl, rfl⟩ : t0 = t ∧ f0 = f := by
        have h1 := congrArg Prod.fst heq
        have h2 := congrArg Prod.snd heq
        exact ⟨h1.symm, h2.symm⟩
      have : v0 = v := by rw [hv0] at hv; exact Option.some.inj hv
      subst this
      apply applyAdoption_m_preserve
      · intro e he; exact hall e (List.mem_cons_of_mem _ he)
      · intro e he hef; exact huniq e (List.mem_cons_of_mem _ he) hef
      · exact dlookup_dictSet_self _ _ _
    · exact ih _ _ (fun e he => hall e (List.mem_cons_of_mem _ he))
        (fun e he hef => huniq e (List.mem_cons_of_mem _ he) hef) hmem' hv

theorem setIffid_preserve (heap : Heap) (v : PyVal) (f oid : Nat)
    (hne : v ≠ .vobj oid) : dlookup (setIffid heap v f) oid = dlookup heap oid := by
  cases v with
  | vobj oid2 =>
    have h2 : oid2 ≠ oid := fun h => hne (by rw [h])
    cases hd : dlookup heap oid2 with
    | none => simp [setIffid, hd]
    | some d => simp [setIffid, hd, dlookup_dictSet_other _ _ _ _ h2]
  | vint n => rfl
  | vfloat q => rfl
  | vbool b => rfl
  | vnone => rfl
  | vstr s => rfl

theorem applyAdoption_heap_preserve (wanted : List (Nat × PyVal)) (oid f : Nat) :
    ∀ (reply : List (Nat × Nat)) (m : List (Nat × PyVal)) (heap : Heap) (d : PyObjData),
    (∀ e ∈ reply, (dlookup wanted e.1).isSome) →
    (∀ e ∈ reply, dlookup wanted e.1 = some (.vobj oid) → e.2 = f) →
    dlookup heap oid = some d → d.callable = true → d.iffid = some f →
    ∃ d2, dlookup (applyAdoption wanted reply m heap).2.1 oid = some d2 ∧
      d2.callable = true ∧ d2.iffid = some f := by
  intro reply
  induction reply with
  | nil =>
    intro m heap d _ _ hd hc hi
    exact ⟨d, by simpa [applyAdoption] using hd, hc, hi⟩
  | cons e rest ih =>
    intro m heap d hall hsame hd hc hi
    obtain ⟨t0, f0⟩ := e
    obtain ⟨v0, hv0⟩ := Option.isSome_iff_exists.mp (hall (t0, f0) (List.mem_cons_self _ _))
    simp only [applyAdoption, hv0]
    by_cases hvo : v0 = .vobj oid
    · subst hvo
      have hf0 : f0 = f := hsame (t0, f0) (List.mem_cons_self _ _) hv0
      rw [hf0]
      have hcall : isCallable heap (.vobj oid) = true := by simp [isCallable, hd, hc]
      rw [if_pos hcall]
      have hset : setIffid heap (.vobj oid) f = dictSet heap oid { d with iffid := some f } := by
        simp [setIffid, hd]
      rw [hset]
      exact ih _ _ { d with iffid := some f }
        (fun e he => hall e (List.mem_cons_of_mem _ he))
        (fun e he hef => hsame e (List.mem_cons_of_mem _ he) hef)
        (dlookup_dictSet_self _ _ _) hc rfl
    · have hpres : dlookup (if isCallable heap v0 then setIffid heap v0 f0 else heap) oid =
          some d := by
        by_cases hcall : isCallable heap v0
        · rw [if_pos hcall, setIffid_preserve _ _ _ _ hvo]
          exact hd
        · rw [if_neg hcall]
          exact hd
      exact ih _ _ d (fun e he => hall e (List.mem_cons_of_mem _ he))
        (fun e he hef => hsame e (List.mem_cons_of_mem _ he) hef) hpres hc hi

theorem applyAdoption_heap_set (wanted : List (Nat × PyVal)) (oid t f : Nat) :
    ∀ (reply : List (Nat × Nat)) (m : List (Nat × PyVal)) (heap : Heap) (d : PyObjData),
    (∀ e ∈ reply, (dlookup wanted e.1).isSome) →
    (∀ e ∈ reply, dlookup wanted e.1 = some (.vobj oid) → e.2 = f) →
    (t, f) ∈ reply → dlookup wanted t = some (.vobj oid) →
    dlookup heap oid = some d → d.callable = true →
    ∃ d2, dlookup (applyAdoption wanted reply m heap).2.1 oid = some d2 ∧
      d2.callable = true ∧ d2.iffid = some f := by
  intro reply
  induction reply with
  | nil => intro m heap d _ _ hmem _ _ _; simp at hmem
  | cons e rest ih =>
    intro m heap d hall hsame hmem hv hd hc
    obtain ⟨t0, f0⟩ := e
    obtain ⟨v0, hv0⟩ := Option.isSome_iff_exists.mp (hall (t0, f0) (List.mem_cons_self _ _))
    simp only [applyAdoption, hv0]
    by_cases hvo : v0 = .vobj oid
    · subst hvo
      have hf0 : f0 = f := hsame (t0, f0) (List.mem_cons_self _ _) hv0
      rw [hf0]
      have hcall : isCallable heap (.vobj oid) = true := by simp [isCallable, hd, hc]
      rw [if_pos hcall]
      have hset : setIffid heap (.vobj oid) f = dictSet heap oid { d with iffid := some f } := by
        simp [setIffid, hd]
      rw [hset]
      exact applyAdoption_heap_preserve wanted oid f rest _ _ { d with iffid := some f }
        (fun e he => hall e (List.mem_cons_of_mem _ he))
        (fun e he hef => hsame e (List.mem_cons_of_mem _ he) hef)
        (dlookup_dictSet_self _ _ _) hc rfl
    · have hmem' : (t, f) ∈ rest := by
        rcases List.mem_cons.mp hmem with heq | h
        · exfalso
          apply hvo
          have ht : t0 = t := (congrArg Prod.fst heq).symm
          rw [ht, hv] at hv0
          exact (Option.some.inj hv0).symm
        · exact h
      have hpres : dlookup (if isCallable heap v0 then setIffid heap v0 f0 else heap) oid =
          some d := by
        by_cases hcall : isCallable heap v0
        · rw [if_pos hcall, setIffid_preserve _ _ _ _ hvo]
          exact hd
        · rw [if_neg hcall]
          exact hd
      exact ih _ _ d (fun e he => hall e (List.mem_cons_of_mem _ he))
        (fun e he hef => hsame e (List.mem_cons_of_mem _ he) hef) hmem' hv hpres hc

/-- Claim C2: a `pcall` whose arguments include an object with no `ffid`
attribute records that object in the `wanted` map under a provisional tag
and serializes it as an adoption request (awaiting the FFID-assignment
reply); and when that reply maps the tag to an FFID `f` — with the reply
covering only recorded tags, and `f` assigned only to this object's tags —
resolving `f` through `Executor.get` on the post-call state yields back
the very same object instance, and a callable adoptee is additionally
tagged with `iffid = f`. -/
theorem adoption_round_trip (st : ExecState) (et : Bool) (oracle : Oracle)
    (ffid0 : Nat) (action : String) (attr : Key) (l : List PyVal)
    (timeout : Option Nat) (oid : Nat)
    (hmem : PyVal.vobj oid ∈ l) (hnof : argFfid st.heap (.vobj oid) = none) :
    (∃ t, dlookup (serArgsJson st.heap ⟨0, false, []⟩ l).1.wanted t = some (.vobj oid) ∧
      SerVal.adoptReq t ∈ (serArgsJson st.heap ⟨0, false, []⟩ l).2 ∧
      (Executor.pcall st et oracle ffid0 action attr (.normal l) timeout).expectReply = true ∧
      (Executor.pcall st et oracle ffid0 action attr (.normal l) timeout).sent.args =
        .serList (serArgsJson st.heap ⟨0, false, []⟩ l).2) ∧
    (∀ t f pre,
      dlookup (serArgsJson st.heap ⟨0, false, []⟩ l).1.wanted t = some (.vobj oid) →
      lockWait timeout (oracle (st.i + 2)) = .fulfilled pre →
      pre.error = none →
      (t, f) ∈ pre.valMap →
      (∀ e ∈ pre.valMap,
        (dlookup (serArgsJson st.heap ⟨0, false, []⟩ l).1.wanted e.1).isSome) →
      (∀ e ∈ pre.valMap, e.2 = f →
        dlookup (serArgsJson st.heap ⟨0, false, []⟩ l).1.wanted e.1 = some (.vobj oid)) →
      Executor.get
          (Executor.pcall st et oracle ffid0 action attr (.normal l) timeout).finalState f =
        some (.vobj oid) ∧
      (∀ d, dlookup st.heap oid = some d → d.callable = true →
        (∀ e ∈ pre.valMap,
          dlookup (serArgsJson st.heap ⟨0, false, []⟩ l).1.wanted e.1 = some (.vobj oid) →
          e.2 = f) →
        ∃ d2, dlookup (Executor.pcall st et oracle ffid0 action attr (.normal l)
            timeout).finalState.heap oid = some d2 ∧
          d2.callable = true ∧ d2.iffid = some f)) := by
  have hw0 : wellTagged ⟨0, false, []⟩ := fun e he => absurd he (List.not_mem_nil e)
  obtain ⟨t0, hlook0, hreq0, her⟩ :=
    serArgsJson_adopts st.heap l ⟨0, false, []⟩ hw0 oid hmem hnof
  constructor
  · exact ⟨t0, hlook0, hreq0, her, rfl⟩
  · intro t f pre hlook hw hpe hpair hall huniq
    have hfin : (Executor.pcall st et oracle ffid0 action attr (.normal l) timeout).finalState =
        ⟨st.i + 2,
          (applyAdoption (serArgsJson st.heap ⟨0, false, []⟩ l).1.wanted
            pre.valMap st.m st.heap).1,
          (applyAdoption (serArgsJson st.heap ⟨0, false, []⟩ l).1.wanted
            pre.valMap st.m st.heap).2.1⟩ := by
      simp only [Executor.pcall, pcallSer, her, hw, hpe, if_true]
    constructor
    · rw [Executor.get, hfin]
      exact applyAdoption_m_lookup _ _ t f pre.valMap st.m st.heap hall huniq hpair hlook
    · intro d hd hc hsame
      rw [hfin]
      exact applyAdoption_heap_set _ oid t f pre.valMap st.m st.heap d hall hsame hpair
        hlook hd hc

/-- Witness for C2: a concrete callable object without an `ffid`
attribute, passed as the only argument and assigned FFID 9 by the reply,
resolves back to itself through `Executor.get`, with `iffid = 9`. -/
theorem adoption_round_trip_witness :
    Executor.get (Executor.pcall ⟨0, [], [(1, ⟨none, true, none⟩)]⟩ true
        (fun r => if r = 2 then some (0, { valMap := [(1, 9)] }) else none)
        0 "call" (.kstr "f") (.normal [.vobj 1]) (some 1000)).finalState 9 =
      some (.vobj 1) ∧
    ∃ d2, dlookup (Executor.pcall ⟨0, [], [(1, ⟨none, true, none⟩)]⟩ true
        (fun r => if r = 2 then some (0, { valMap := [(1, 9)] }) else none)
        0 "call" (.kstr "f") (.normal [.vobj 1]) (some 1000)).finalState.heap 1 = some d2 ∧
      d2.callable = true ∧ d2.iffid = some 9 := by
  have h := (adoption_round_trip ⟨0, [], [(1, ⟨none, true, none⟩)]⟩ true
    (fun r => if r = 2 then some (0, { valMap := [(1, 9)] }) else none)
    0 "call" (.kstr "f") [.vobj 1] (some 1000) 1 (by decide) (by decide)).2
    1 9 { valMap := [(1, 9)] } (by decide) (by decide) (by decide) (by decide)
    (by decide) (by decide)
  exact ⟨h.1, h.2 ⟨none, true, none⟩ (by decide) (by decide) (by decide)⟩

end JsPyBridge
